import Mathlib

/-!
# Verification of the JOVIAL J73 semantic parser

A shallow embedding of `jovial_semantic_parser.py` (the semantic model and
the line-oriented statement recogniser of the Jovial-LSP repository),
together with theorems settling the frozen claims about it.

Text is modelled as `List Char`; Python dictionaries (insertion ordered,
string keyed) as association lists with in-place update; Python regular
expressions are embedded as deterministic matchers that reproduce the
leftmost / greedy / ordered-alternation semantics of the specific patterns
used by the source.  Fallible code (`int()` raising `ValueError`) returns
`Except Unit`.
-/

namespace Jovial

/-! ## Characters and Python string primitives -/

/-- The double quote character `"` (starts a J73 comment). -/
def quoteChar : Char := Char.ofNat 34

/-- The apostrophe character, a legal JOVIAL identifier character. -/
def apoChar : Char := Char.ofNat 39

/-- The newline character, the line separator used by `parse`. -/
def nlChar : Char := Char.ofNat 10

/-- Python `str.strip` whitespace: space, tab, LF, VT, FF, CR. -/
def isPyWs (c : Char) : Bool :=
  c = ' ' || c = Char.ofNat 9 || c = Char.ofNat 10 || c = Char.ofNat 11 ||
  c = Char.ofNat 12 || c = Char.ofNat 13

/-- ASCII upper-casing, matching Python `str.upper` on the ASCII inputs the
parser deals with. -/
def upperChars (s : List Char) : List Char := s.map Char.toUpper

/-- Python `str.strip()`. -/
def pyStrip (s : List Char) : List Char :=
  ((s.dropWhile isPyWs).reverse.dropWhile isPyWs).reverse

/-- Python `str.rstrip(';')`. -/
def pyRstripSemis (s : List Char) : List Char :=
  (s.reverse.dropWhile (· = ';')).reverse

/-- Python `str.endswith(';')`. -/
def endsSemi (s : List Char) : Bool := s.getLast? = some ';'

/-- Python `str.split(sep)` for a one-character separator (keeps empty
segments, as Python does). -/
def splitOnCh (sep : Char) : List Char → List (List Char)
  | [] => [[]]
  | c :: cs =>
    match splitOnCh sep cs with
    | [] => [[]]
    | r :: rs => if c = sep then [] :: r :: rs else (c :: r) :: rs

/-- Python `str.find(sub)`: index of the first occurrence, `-1` if absent. -/
def pyFindAux (needle : List Char) : List Char → Int → Int
  | s, i =>
    if needle.isPrefixOf s then i
    else
      match s with
      | [] => -1
      | _ :: t => pyFindAux needle t (i + 1)

/-- Python `str.find(sub)`. -/
def pyFind (hay needle : List Char) : Int := pyFindAux needle hay 0

/-- Python `sub in s` (substring containment). -/
def containsSub (needle : List Char) : List Char → Bool
  | [] => needle.isPrefixOf ([] : List Char)
  | c :: cs => needle.isPrefixOf (c :: cs) || containsSub needle cs

/-- Numeric value of a digit run (Python `int` on a digits-only string). -/
def natOfDigits (s : List Char) : Nat :=
  s.foldl (fun a c => a * 10 + (c.toNat - 48)) 0

/-- Python `str.isdigit` restricted to ASCII digits. -/
def allDigits (s : List Char) : Bool := s ≠ [] && s.all Char.isDigit

/-! ## Python dictionaries as insertion-ordered association lists -/

/-- Python `d[k]` lookup returning `none` when absent. -/
def pyGet {α : Type} (d : List (String × α)) (k : String) : Option α :=
  match d with
  | [] => none
  | (k', v) :: r => if k' = k then some v else pyGet r k

/-- Python `d[k] = v`: update in place when the key exists (keeping its
position), otherwise append. -/
def pySet {α : Type} (d : List (String × α)) (k : String) (v : α) :
    List (String × α) :=
  match d with
  | [] => [(k, v)]
  | (k', v') :: r => if k' = k then (k', v) :: r else (k', v') :: pySet r k v

/-- Python `list(d.keys())`. -/
def pyKeys {α : Type} (d : List (String × α)) : List String := d.map Prod.fst

/-! ## Data model (`jovial_semantic_parser.py`, dataclasses) -/

/-- `JovialType`: the J73 type tags. -/
inductive JovialType where
  | SIGNED | UNSIGNED | FLOAT | FIXED | BIT | CHARACTER | STATUS
  | POINTER | TABLE | ENTRY | UNKNOWN
  deriving DecidableEq, Repr

/-- `ItemDefinition`: a JOVIAL ITEM (variable) declaration. -/
structure ItemDefinition where
  name : String
  type : JovialType
  size : Option Nat := none
  scale : Option Int := none
  status_values : List String := []
  is_constant : Bool := false
  is_static : Bool := false
  is_parallel : Bool := false
  initial_value : Option String := none
  position : Option (Int × Int) := none
  line_number : Nat := 0
  column_start : Int := 0
  column_end : Int := 0
  parent_table : Option String := none
  deriving DecidableEq, Repr

/-- `TableDefinition`: a JOVIAL TABLE declaration. -/
structure TableDefinition where
  name : String
  dimensions : List (Int × Int) := []
  entries : List (String × ItemDefinition) := []
  is_constant : Bool := false
  is_static : Bool := false
  is_parallel : Bool := false
  wordsize : Option Nat := none
  line_start : Nat := 0
  line_end : Nat := 0
  deriving DecidableEq, Repr

/-- `ProcDefinition`: a JOVIAL PROC declaration; parameter modes are the
strings `IN` / `OUT` / `INOUT` exactly as in the source. -/
structure ProcDefinition where
  name : String
  parameters : List (String × String) := []
  return_type : Option JovialType := none
  is_recursive : Bool := false
  is_reentrant : Bool := false
  local_items : List (String × ItemDefinition) := []
  local_tables : List (String × TableDefinition) := []
  line_start : Nat := 0
  line_end : Nat := 0
  body_start : Nat := 0
  deriving DecidableEq, Repr

/-- `CompoolReference` (never populated by the parser, kept for fidelity). -/
structure CompoolReference where
  name : String
  items : List String := []
  tables : List String := []
  procs : List String := []
  line_number : Nat := 0
  deriving DecidableEq, Repr

/-- `DefineConstant`: a DEFINE compile-time constant. -/
structure DefineConstant where
  name : String
  value : String
  line_number : Nat := 0
  deriving DecidableEq, Repr

/-- A user `TYPE` declaration entry: description text and line. -/
structure TypeEntry where
  name : String
  description : String
  line : Nat
  deriving DecidableEq, Repr

/-- `JovialSemanticModel`. -/
structure JovialSemanticModel where
  items : List (String × ItemDefinition) := []
  tables : List (String × TableDefinition) := []
  procs : List (String × ProcDefinition) := []
  compools : List (String × CompoolReference) := []
  defines : List (String × DefineConstant) := []
  types : List (String × TypeEntry) := []
  current_scope : String := "GLOBAL"
  scope_stack : List String := []
  program_name : Option String := none
  module_type : Option String := none
  deriving DecidableEq, Repr

/-- A fresh model, as built by `JovialSemanticModel.__init__`. -/
def emptyModel : JovialSemanticModel := {}

/-- `JovialSemanticModel.add_item`. -/
def addItem (m : JovialSemanticModel) (it : ItemDefinition) :
    JovialSemanticModel :=
  let key := if m.current_scope ≠ "GLOBAL"
    then m.current_scope ++ "." ++ it.name else it.name
  { m with items := pySet (pySet m.items it.name it) key it }

/-- `JovialSemanticModel.get_item`: scoped lookup first, then global. -/
def getItem (m : JovialSemanticModel) (n : String) : Option ItemDefinition :=
  let scopedName := m.current_scope ++ "." ++ n
  match pyGet m.items scopedName with
  | some it => some it
  | none => pyGet m.items n

/-- `JovialSemanticModel.add_table`. -/
def addTable (m : JovialSemanticModel) (t : TableDefinition) :
    JovialSemanticModel :=
  { m with tables := pySet m.tables t.name t }

/-- `JovialSemanticModel.get_table`. -/
def getTable (m : JovialSemanticModel) (n : String) : Option TableDefinition :=
  pyGet m.tables n

/-- `JovialSemanticModel.add_proc`. -/
def addProc (m : JovialSemanticModel) (p : ProcDefinition) :
    JovialSemanticModel :=
  { m with procs := pySet m.procs p.name p }

/-- `JovialSemanticModel.get_proc`. -/
def getProc (m : JovialSemanticModel) (n : String) : Option ProcDefinition :=
  pyGet m.procs n

/-- `JovialSemanticModel.get_all_symbols`: item, table, proc and define
names; Python's `list(set(...))` erases exact-string duplicates (modelled
by `List.dedup`, which keeps one representative per distinct string). -/
def getAllSymbols (m : JovialSemanticModel) : List String :=
  (pyKeys m.items ++ pyKeys m.tables ++ pyKeys m.procs ++
    pyKeys m.defines).dedup

/-! ## Embedded regular-expression matchers

Each matcher reproduces the exact leftmost / greedy / ordered-alternation
behaviour of the corresponding `re.match` / `re.search` / `findall` call in
the source, including the places where greedy sub-matches never backtrack
(a maximal identifier run followed by a mandatory `\s+` cannot give
characters back) and the places where they do (the attribute repetition
before the type alternation, and the `DEFINE` name before its `(.+)`
tail). -/

/-- Case-insensitive literal: `pat` is given upper-cased; returns the rest
of `s` after the literal. -/
def ciPrefix : List Char → List Char → Option (List Char)
  | [], s => some s
  | _ :: _, [] => none
  | p :: ps, c :: cs => if c.toUpper = p then ciPrefix ps cs else none

theorem ciPrefix_length : ∀ (p s r : List Char),
    ciPrefix p s = some r → r.length + p.length = s.length := by
  intro p
  induction p with
  | nil =>
    intro s r h
    simp only [ciPrefix, Option.some.injEq] at h
    subst h; simp
  | cons a ps ih =>
    intro s r h
    cases s with
    | nil => simp [ciPrefix] at h
    | cons c cs =>
      simp only [ciPrefix] at h
      split at h
      · have := ih cs r h
        simp only [List.length_cons]
        omega
      · exact absurd h (by simp)

theorem dropWhile_len_le (p : Char → Bool) (l : List Char) :
    (l.dropWhile p).length ≤ l.length := by
  induction l with
  | nil => simp
  | cons c cs ih =>
    by_cases h : p c
    · simp [List.dropWhile, h]; omega
    · simp [List.dropWhile, h]

/-- `\s+` (greedy): require at least one whitespace character, consume the
maximal run.  The following atom in every use site cannot match
whitespace, so the greedy run never backtracks. -/
def ws1 : List Char → Option (List Char)
  | [] => none
  | c :: cs => if isPyWs c then some (cs.dropWhile isPyWs) else none

theorem ws1_length : ∀ (s r : List Char), ws1 s = some r →
    r.length < s.length := by
  intro s r h
  cases s with
  | nil => simp [ws1] at h
  | cons c cs =>
    simp only [ws1] at h
    split at h
    · cases h
      have := dropWhile_len_le isPyWs cs
      simp only [List.length_cons]; omega
    · exact absurd h (by simp)

/-- A JOVIAL identifier tail character: `[A-Z0-9']` with `re.IGNORECASE`. -/
def isIdentTail (c : Char) : Bool := c.isAlpha || c.isDigit || c = apoChar

/-- `([A-Z][A-Z0-9']*)` with `re.IGNORECASE`, greedy: the maximal
identifier run (source casing preserved) and the rest. -/
def identRun : List Char → Option (List Char × List Char)
  | [] => none
  | c :: cs =>
    if c.isAlpha then some (c :: cs.takeWhile isIdentTail, cs.dropWhile isIdentTail)
    else none

theorem identRun_length : ∀ (s nm r : List Char), identRun s = some (nm, r) →
    r.length < s.length := by
  intro s nm r h
  cases s with
  | nil => simp [identRun] at h
  | cons c cs =>
    by_cases hc : c.isAlpha
    · simp only [identRun, hc, if_pos, Option.some.injEq, Prod.mk.injEq] at h
      obtain ⟨_, h2⟩ := h
      subst h2
      have := dropWhile_len_le isIdentTail cs
      simp only [List.length_cons]
      omega
    · simp [identRun, hc] at h

/-- Characters of an identifier run never include `'.'`. -/
theorem identRun_no_dot : ∀ (s nm r : List Char), identRun s = some (nm, r) →
    '.' ∉ nm := by
  intro s nm r h
  cases s with
  | nil => simp [identRun] at h
  | cons a cs =>
    by_cases ha : a.isAlpha
    · simp only [identRun, ha, if_pos, Option.some.injEq, Prod.mk.injEq] at h
      obtain ⟨h1, _⟩ := h
      subst h1
      intro hmem
      rcases List.mem_cons.mp hmem with hd | ht
      · rw [← hd] at ha
        exact absurd ha (by decide)
      · have htw := List.mem_takeWhile_imp ht
        exact absurd htw (by decide)
    · simp [identRun, ha] at h

/-- One literal alternative with its captured source text. -/
def tryLit (w : List Char) (s : List Char) : Option (List Char × List Char) :=
  match ciPrefix w s with
  | none => none
  | some r => some (s.take w.length, r)

/-- One repetition of `(STATIC\s+|CONSTANT\s+|PARALLEL\s+)` at a given
alternative `w`; the capture includes the whitespace, as in Python. -/
def tryAttrWord (w : List Char) (s : List Char) : Option (List Char × List Char) :=
  match ciPrefix w s with
  | none => none
  | some [] => none
  | some (c :: cs) =>
    if isPyWs c then
      some (s.take (w.length + 1 + (cs.takeWhile isPyWs).length), cs.dropWhile isPyWs)
    else none

theorem tryAttrWord_length : ∀ (w s cap r : List Char), w ≠ [] →
    tryAttrWord w s = some (cap, r) → r.length < s.length := by
  intro w s cap r hw h
  unfold tryAttrWord at h
  split at h
  · exact Option.noConfusion h
  · exact Option.noConfusion h
  · rename_i c cs hci
    split at h
    · rename_i hws
      simp only [Option.some.injEq, Prod.mk.injEq] at h
      obtain ⟨_, h3⟩ := h
      subst h3
      have hlen := ciPrefix_length w s (c :: cs) hci
      have hd := dropWhile_len_le isPyWs cs
      have hw1 : 1 ≤ w.length := by
        cases w with
        | nil => exact absurd rfl hw
        | cons _ _ => simp
      simp only [List.length_cons] at hlen
      omega
    · exact Option.noConfusion h

/-- The attribute repetition `(STATIC\s+|CONSTANT\s+|PARALLEL\s+)`:
alternatives in source order (their first letters differ, so at most one
matches at a position). -/
def tryAttr (s : List Char) : Option (List Char × List Char) :=
  match tryAttrWord "STATIC".data s with
  | some r => some r
  | none =>
    match tryAttrWord "CONSTANT".data s with
    | some r => some r
    | none => tryAttrWord "PARALLEL".data s

theorem tryAttr_length {s cap r : List Char} (h : tryAttr s = some (cap, r)) :
    r.length < s.length := by
  unfold tryAttr at h
  split at h
  · rename_i r' hr
    cases h
    exact tryAttrWord_length _ s cap r (by simp) hr
  · split at h
    · rename_i r' hr
      cases h
      exact tryAttrWord_length _ s cap r (by simp) hr
    · exact tryAttrWord_length _ s cap r (by simp) h

/-- The greedy `(attr)*` loop: consume repetitions while possible,
recording each repetition's capture and the position just before it
(most recent first) for backtracking.  Structural recursion on a fuel
bound: each repetition consumes at least one character, so any fuel
greater than the position's length is enough (`attrsGo`). -/
def attrsGoF (fuel : Nat) (s : List Char) (acc : List (List Char × List Char)) :
    List (List Char × List Char) × List Char :=
  match fuel with
  | 0 => (acc, s)
  | fuel + 1 =>
    match tryAttr s with
    | none => (acc, s)
    | some (cap, s') => attrsGoF fuel s' ((cap, s) :: acc)

/-- The `(attr)*` loop with sufficient fuel. -/
def attrsGo (s : List Char) (acc : List (List Char × List Char)) :
    List (List Char × List Char) × List Char :=
  attrsGoF (s.length + 1) s acc

/-- The ordered alternation `(S|U|F|A|B|C|P|STATUS)` of the ITEM pattern,
in source order.  (`S` precedes `STATUS`, so the engine never reaches the
`STATUS` alternative on text starting with `S`.) -/
def tryType (s : List Char) : Option (List Char × List Char) :=
  match tryLit "S".data s with
  | some r => some r
  | none => match tryLit "U".data s with
    | some r => some r
    | none => match tryLit "F".data s with
      | some r => some r
      | none => match tryLit "A".data s with
        | some r => some r
        | none => match tryLit "B".data s with
          | some r => some r
          | none => match tryLit "C".data s with
            | some r => some r
            | none => match tryLit "P".data s with
              | some r => some r
              | none => tryLit "STATUS".data s

/-- Regex backtracking out of the `(attr)*` loop: if the type alternation
fails at the loop's final position, repetitions are given back one at a
time (re-trying the type where the popped repetition began); the `attrs`
capture is the last repetition remaining in the final match, `[]` when
none remain (Python's group is then `None`, used as `""`). -/
def resolveType (reps : List (List Char × List Char)) (pos : List Char) :
    Option (List Char × List Char × List Char) :=
  match tryType pos with
  | some (tcap, r) =>
    some ((match reps with | [] => [] | (cap, _) :: _ => cap), tcap, r)
  | none =>
    match reps with
    | [] => none
    | (_, posBefore) :: rest => resolveType rest posBefore

/-- The result of the ITEM declaration pattern. -/
structure ItemMatch where
  name : List Char
  attrs : List Char
  typeCap : List Char
  sizeDigits : Option (List Char)
  rest : List Char
  deriving Repr

/-- `re.match` of
`ITEM\s+([A-Z][A-Z0-9']*)\s+(STATIC\s+|CONSTANT\s+|PARALLEL\s+)*`
`(S|U|F|A|B|C|P|STATUS)\s*(\d+)?(.*)` (IGNORECASE). -/
def itemMatch (stmt : List Char) : Option ItemMatch := do
  let r0 ← ciPrefix "ITEM".data stmt
  let r1 ← ws1 r0
  let (nm, r2) ← identRun r1
  let r3 ← ws1 r2
  let (reps, pos) := attrsGo r3 []
  let (attrs, tcap, r4) ← resolveType reps pos
  let r5 := r4.dropWhile isPyWs
  let ds := r5.takeWhile Char.isDigit
  let rest := r5.dropWhile Char.isDigit
  some ⟨nm, attrs, tcap, if ds = [] then none else some ds, rest⟩

/-- The capture of `re.search(r'=\s*(.+)$', rest)` after `.strip()`:
the text after the first `=` that has a nonempty remainder, stripped
(Python's `\s*`/`.+` backtracking inside the tail only moves whitespace
between the two groups, which stripping erases). -/
def searchEqVal : List Char → Option (List Char)
  | [] => none
  | c :: cs =>
    if c = '=' && cs ≠ [] then some (pyStrip cs) else searchEqVal cs

/-- The tail of `V\s*\(\s*([A-Z][A-Z0-9']*)\s*\)` after the leading `V`. -/
def vTail (s : List Char) : Option (List Char × List Char) :=
  match s.dropWhile isPyWs with
  | '(' :: s2 =>
    match identRun (s2.dropWhile isPyWs) with
    | some (nm, s4) =>
      match s4.dropWhile isPyWs with
      | ')' :: s6 => some (nm, s6)
      | _ => none
    | none => none
  | _ => none

theorem vTail_length : ∀ (s nm r : List Char), vTail s = some (nm, r) →
    r.length < s.length := by
  intro s nm r h
  unfold vTail at h
  split at h
  · rename_i s2 hdrop
    split at h
    · rename_i nm' s4 hident
      split at h
      · rename_i s6 hdrop4
        simp only [Option.some.injEq, Prod.mk.injEq] at h
        obtain ⟨_, h2⟩ := h
        subst h2
        have h1 : s2.length < s.length := by
          have := dropWhile_len_le isPyWs s
          have : ('(' :: s2).length ≤ s.length := hdrop ▸ dropWhile_len_le isPyWs s
          simp only [List.length_cons] at this
          omega
        have h2 : s4.length < s2.length := by
          have hi := identRun_length _ _ _ hident
          have := dropWhile_len_le isPyWs s2
          omega
        have h3 : s6.length < s4.length := by
          have : (')' :: s6).length ≤ s4.length := hdrop4 ▸ dropWhile_len_le isPyWs s4
          simp only [List.length_cons] at this
          omega
        omega
      · exact absurd h (by simp)
    · exact absurd h (by simp)
  · exact absurd h (by simp)

/-- `STATUS_VALUE_PATTERN.findall`: all non-overlapping `V(<name>)`
matches, left to right (IGNORECASE).  Structural recursion on a fuel
bound: every step strictly shortens the text, so the text's length is
enough fuel (`findVs`). -/
def findVsF : Nat → List Char → List String
  | 0, _ => []
  | _, [] => []
  | fuel + 1, c :: cs =>
    if c.toUpper = 'V' then
      match vTail cs with
      | some (nm, rest) => String.mk nm :: findVsF fuel rest
      | none => findVsF fuel cs
    else findVsF fuel cs

/-- The `V(<name>)` scanner with sufficient fuel. -/
def findVs (s : List Char) : List String := findVsF s.length s

/-- `re.match` of `TABLE\s+([A-Z][A-Z0-9']*)\s*\(([^)]+)\)\s*(.*)`:
name, dimension text, attribute text. -/
def tableMatch (stmt : List Char) : Option (List Char × List Char × List Char) := do
  let r0 ← ciPrefix "TABLE".data stmt
  let r1 ← ws1 r0
  let (nm, r2) ← identRun r1
  match r2.dropWhile isPyWs with
  | '(' :: q =>
    let dims := q.takeWhile (· ≠ ')')
    if dims = [] then none
    else
      match q.dropWhile (· ≠ ')') with
      | ')' :: r4 => some (nm, dims, r4.dropWhile isPyWs)
      | _ => none
  | _ => none

/-- Python `int()` on a string of the shape `-*digits` (the only shape the
guard lets through): a single optional sign is accepted, a repeated sign
raises `ValueError`. -/
def pyIntLiteral (s : List Char) : Except Unit Int :=
  match s with
  | [] => .error ()
  | c :: rest =>
    if c = '-' then
      if rest ≠ [] && rest.all Char.isDigit then .ok (-(natOfDigits rest : Int))
      else .error ()
    else if (c :: rest).all Char.isDigit then .ok ((natOfDigits (c :: rest) : Int))
    else .error ()

/-- `int(b) if b.lstrip('-').isdigit() else 0` for a table bound `b`. -/
def boundValue (s : List Char) : Except Unit Int :=
  if allDigits (s.dropWhile (· = '-')) then pyIntLiteral s else .ok 0

/-- One dimension of a TABLE declaration. -/
def parseDim (d0 : List Char) : Except Unit (Int × Int) :=
  let d := pyStrip d0
  if d.contains ':' then
    let parts := splitOnCh ':' d
    do
      let lo ← boundValue (pyStrip (parts.headD []))
      let hi ← boundValue (pyStrip ((parts.drop 1).headD []))
      return (lo, hi)
  else
    if allDigits d then .ok (1, (natOfDigits d : Int)) else .ok (1, 0)

/-- All dimensions, in source order. -/
def parseDims (ds : List (List Char)) : Except Unit (List (Int × Int)) :=
  ds.mapM parseDim

/-- The tail `\s+(\d+)` after a candidate `W`. -/
def wDigits (cs : List Char) : Option (List Char) :=
  match cs with
  | [] => none
  | c :: r =>
    if isPyWs c then
      let ds := (r.dropWhile isPyWs).takeWhile Char.isDigit
      if ds = [] then none else some ds
    else none

/-- `re.search(r'W\s+(\d+)', attrs, IGNORECASE)`. -/
def wSearch : List Char → Option Nat
  | [] => none
  | c :: cs =>
    if c.toUpper = 'W' then
      match wDigits cs with
      | some ds => some (natOfDigits ds)
      | none => wSearch cs
    else wSearch cs

/-- `re.match` of `PROC\s+([A-Z][A-Z0-9']*)\s*(?:\(([^)]*)\))?\s*(.*)`:
name, optional parameter text, rest.  An unclosed `(` makes the optional
group fail, leaving the parenthesis to `(.*)`. -/
def procMatch (stmt : List Char) : Option (List Char × Option (List Char) × List Char) := do
  let r0 ← ciPrefix "PROC".data stmt
  let r1 ← ws1 r0
  let (nm, r2) ← identRun r1
  let r3 := r2.dropWhile isPyWs
  match r3 with
  | '(' :: q =>
    let ps := q.takeWhile (· ≠ ')')
    match q.dropWhile (· ≠ ')') with
    | ')' :: r4 => some (nm, some ps, r4.dropWhile isPyWs)
    | _ => some (nm, none, r3)
  | _ => some (nm, none, r3)

/-- `re.match` of `TYPE\s+([A-Z][A-Z0-9']*)\s+(.+)`: name and free-text
description (the `\s+`/`(.+)` interplay resolved as Python does). -/
def typeMatch (stmt : List Char) : Option (List Char × List Char) := do
  let r0 ← ciPrefix "TYPE".data stmt
  let r1 ← ws1 r0
  let (nm, r2) ← identRun r1
  match r2 with
  | [] => none
  | c :: cs =>
    if isPyWs c then
      let afterWs := cs.dropWhile isPyWs
      if afterWs ≠ [] then some (nm, afterWs)
      else
        match cs.getLast? with
        | some d => some (nm, [d])
        | none => none
    else none

/-- The value group of `\s*=?\s*(.+)` on a nonempty remainder, following
Python's backtracking preference (leading whitespace dropped first, `=`
consumed when possible, at least one character left for `(.+)`). -/
def defTailVal (r : List Char) : List Char :=
  let w := r.dropWhile isPyWs
  match w with
  | [] => (match r.getLast? with | some c => [c] | none => [])
  | '=' :: w2 =>
    let w3 := w2.dropWhile isPyWs
    if w3 ≠ [] then w3
    else
      match w2.getLast? with
      | some c => [c]
      | none => w
  | _ => w

/-- `re.match` of `DEFINE\s+([A-Z][A-Z0-9']*)\s*=?\s*(.+)`: the greedy
name gives one character back when nothing remains for `(.+)`
(so `DEFINE XY` yields name `X`, value `Y`, exactly as Python). -/
def defineMatch (stmt : List Char) : Option (List Char × List Char) := do
  let r0 ← ciPrefix "DEFINE".data stmt
  let r1 ← ws1 r0
  let (nm, r2) ← identRun r1
  if r2 ≠ [] then some (nm, defTailVal r2)
  else
    let nm' := nm.dropLast
    if nm' = [] then none
    else
      match nm.getLast? with
      | some c => some (nm', defTailVal [c])
      | none => none

/-- One alternative of `(ITEM|TABLE|PROC)?\s*([A-Z][A-Z0-9']*)`. -/
def kindAlt (w : List Char) (t : List Char) : Option (List Char × List Char) := do
  let (cap, r) ← tryLit w t
  let (nm, _) ← identRun (r.dropWhile isPyWs)
  some (cap, nm)

/-- `(ITEM|TABLE|PROC)?\s*([A-Z][A-Z0-9']*)`: alternatives in source
order, then the empty alternative. -/
def kindName (t : List Char) : Option (Option (List Char) × List Char) :=
  match kindAlt "ITEM".data t with
  | some (k, nm) => some (some k, nm)
  | none =>
    match kindAlt "TABLE".data t with
    | some (k, nm) => some (some k, nm)
    | none =>
      match kindAlt "PROC".data t with
      | some (k, nm) => some (some k, nm)
      | none =>
        match identRun t with
        | some (nm, _) => some (none, nm)
        | none => none

/-- `re.match` of `DEF\s+(ITEM|TABLE|PROC)?\s*([A-Z][A-Z0-9']*)`. -/
def defMatch (stmt : List Char) : Option (Option (List Char) × List Char) := do
  let r0 ← ciPrefix "DEF".data stmt
  let r1 ← ws1 r0
  kindName r1

/-- `re.match` of `REF\s+(ITEM|TABLE|PROC)?\s*([A-Z][A-Z0-9']*)`. -/
def refMatch (stmt : List Char) : Option (Option (List Char) × List Char) := do
  let r0 ← ciPrefix "REF".data stmt
  let r1 ← ws1 r0
  kindName r1

/-- `re.match` of `START\s+([A-Z][A-Z0-9']*)?`: the program name when the
optional group matched (the handler ignores a match without the group, so
the two failure modes coincide). -/
def startMatch (s : List Char) : Option (List Char) := do
  let r0 ← ciPrefix "START".data s
  let r1 ← ws1 r0
  let (nm, _) ← identRun r1
  some nm

/-- `re.match` of `COMPOOL\s+([A-Z][A-Z0-9']*)`. -/
def compoolMatch (s : List Char) : Option (List Char) := do
  let r0 ← ciPrefix "COMPOOL".data s
  let r1 ← ws1 r0
  let (nm, _) ← identRun r1
  some nm

/-! ## Parser state and statement handlers -/

/-- `JovialSemanticParser.__init__` / the state reset at the top of
`parse`: the semantic model plus the parsing context. -/
structure ParserState where
  model : JovialSemanticModel
  lines : List (List Char)
  current_line_num : Nat
  in_table_body : Bool
  current_table : Option String
  in_proc_body : Bool
  current_proc : Option String
  in_compool : Bool
  deriving DecidableEq, Repr

/-- A freshly constructed parser. -/
def initState : ParserState :=
  { model := emptyModel, lines := [], current_line_num := 0,
    in_table_body := false, current_table := none,
    in_proc_body := false, current_proc := none, in_compool := false }

/-- The `type_map` dictionary of `_parse_item_declaration`
(`.get(type_abbrev, UNKNOWN)`). -/
def typeOfAbbrev (t : List Char) : JovialType :=
  if t = "S".data then .SIGNED
  else if t = "U".data then .UNSIGNED
  else if t = "F".data then .FLOAT
  else if t = "A".data then .FIXED
  else if t = "B".data then .BIT
  else if t = "C".data then .CHARACTER
  else if t = "P".data then .POINTER
  else if t = "STATUS".data then .STATUS
  else .UNKNOWN

/-- The ITEM value built by `_parse_item_declaration` from a successful
match of statement `s` (dispatched text) ending at line `i`, with the
parser's `current_table` as `parent_table`. -/
def buildItem (s : List Char) (i : Nat) (ct : Option String) (r : ItemMatch) :
    ItemDefinition :=
  let item_type := typeOfAbbrev (upperChars r.typeCap)
  let attrsU := upperChars r.attrs
  { name := String.mk r.name
    type := item_type
    size := r.sizeDigits.map natOfDigits
    status_values := if item_type = .STATUS then findVs s else []
    is_constant := containsSub "CONSTANT".data attrsU
    is_static := containsSub "STATIC".data attrsU
    is_parallel := containsSub "PARALLEL".data attrsU
    initial_value := (searchEqVal r.rest).map String.mk
    line_number := i
    column_start := pyFind (upperChars s) r.name
    column_end := pyFind (upperChars s) r.name + r.name.length
    parent_table := ct }

/-- The placement block of `_parse_item_declaration`: into the current
table's entries when inside a table body, else into the current proc's
locals when inside a proc body. -/
def placeItem (st : ParserState) (item : ItemDefinition) : ParserState :=
  if st.current_table.isSome && st.in_table_body then
    match st.current_table with
    | some ct =>
      (match getTable st.model ct with
       | some tbl =>
         { st with model := { st.model with
             tables := pySet st.model.tables ct
               { tbl with entries := pySet tbl.entries item.name item } } }
       | none => st)
    | none => st
  else if st.current_proc.isSome && st.in_proc_body then
    match st.current_proc with
    | some cp =>
      (match getProc st.model cp with
       | some p =>
         { st with model := { st.model with
             procs := pySet st.model.procs cp
               { p with local_items := pySet p.local_items item.name item } } }
       | none => st)
    | none => st
  else st

/-- `_parse_item_declaration`. -/
def itemHandler (st : ParserState) (s : List Char) (i : Nat) : ParserState :=
  let stmt := pyStrip (pyRstripSemis s)
  match itemMatch stmt with
  | none => st
  | some r =>
    let item := buildItem s i st.current_table r
    let st1 := placeItem st item
    { st1 with model := addItem st1.model item }

/-- `_parse_table_declaration`; `int()` on a malformed bound propagates a
`ValueError` (modelled as `.error`). -/
def tableHandler (st : ParserState) (s : List Char) (i : Nat) :
    Except Unit ParserState :=
  let stmt := pyStrip (pyRstripSemis s)
  match tableMatch stmt with
  | none => .ok st
  | some (nm, dimsStr, attrs) =>
    match parseDims (splitOnCh ',' dimsStr) with
    | .error e => .error e
    | .ok dims =>
      let attrsU := upperChars attrs
      let tbl : TableDefinition :=
        { name := String.mk nm
          dimensions := dims
          is_constant := containsSub "CONSTANT".data attrsU
          is_static := containsSub "STATIC".data attrsU
          is_parallel := containsSub "PARALLEL".data attrsU
          wordsize := wSearch attrs
          line_start := i }
      .ok { st with model := addTable st.model tbl,
                    current_table := some (String.mk nm) }

/-- Parameter analysis of `_parse_proc_declaration`: split on every colon,
but only sections 0 and 1 are used; without a colon all parameters are
INOUT. -/
def procParams (psOpt : Option (List Char)) : List (String × String) :=
  let ps := psOpt.getD []
  if ps = [] then []
  else if ps.contains ':' then
    let secs := splitOnCh ':' ps
    let ins := ((splitOnCh ',' (secs.headD [])).map pyStrip).filter (· ≠ [])
    let outs := ((splitOnCh ',' ((secs.drop 1).headD [])).map pyStrip).filter (· ≠ [])
    ins.map (fun p => (String.mk p, "IN")) ++ outs.map (fun p => (String.mk p, "OUT"))
  else
    (((splitOnCh ',' ps).map pyStrip).filter (· ≠ [])).map
      (fun p => (String.mk p, "INOUT"))

/-- `_parse_proc_declaration`. -/
def procHandler (st : ParserState) (s : List Char) (i : Nat) : ParserState :=
  let stmt := pyStrip (pyRstripSemis s)
  match procMatch stmt with
  | none => st
  | some (nm, psOpt, _) =>
    let proc : ProcDefinition :=
      { name := String.mk nm, parameters := procParams psOpt, line_start := i }
    { st with model := addProc st.model proc,
              current_proc := some (String.mk nm) }

/-- `_parse_type_declaration`. -/
def typeHandler (st : ParserState) (s : List Char) (i : Nat) : ParserState :=
  let stmt := pyStrip (pyRstripSemis s)
  match typeMatch stmt with
  | none => st
  | some (nm, desc) =>
    { st with model := { st.model with
        types := pySet st.model.types (String.mk nm)
          ⟨String.mk nm, String.mk desc, i⟩ } }

/-- `_parse_define`. -/
def defineHandler (st : ParserState) (s : List Char) (i : Nat) : ParserState :=
  let stmt := pyStrip (pyRstripSemis s)
  match defineMatch stmt with
  | none => st
  | some (nm, v) =>
    { st with model := { st.model with
        defines := pySet st.model.defines (String.mk nm)
          ⟨String.mk nm, String.mk v, i⟩ } }

/-- The body of `_parse_def_reference` after a successful match: an
Unknown-type item stub is added for kind ITEM or no kind. -/
def defStub (st : ParserState) (i : Nat) (kindOpt : Option (List Char))
    (nm : List Char) : ParserState :=
  let kind := kindOpt.map upperChars
  let stub : ItemDefinition :=
    { name := String.mk nm, type := .UNKNOWN, line_number := i }
  if kind = some "ITEM".data ∨ kind = none then
    { st with model := addItem st.model stub }
  else st

/-- `_parse_def_reference`. -/
def defHandler (st : ParserState) (s : List Char) (i : Nat) : ParserState :=
  let stmt := pyStrip (pyRstripSemis s)
  match defMatch stmt with
  | none => st
  | some (kindOpt, nm) => defStub st i kindOpt nm

/-- `_parse_ref_reference`: a stub proc for kind PROC (the default). -/
def refHandler (st : ParserState) (s : List Char) (i : Nat) : ParserState :=
  let stmt := pyStrip (pyRstripSemis s)
  match refMatch stmt with
  | none => st
  | some (kindOpt, nm) =>
    let kind := (kindOpt.map upperChars).getD "PROC".data
    let stub : ProcDefinition := { name := String.mk nm, line_start := i }
    if kind = "PROC".data then
      { st with model := addProc st.model stub }
    else st

/-- `_parse_start`: record the optional program name; always set
module-type MAIN. -/
def startHandler (st : ParserState) (s : List Char) (_i : Nat) : ParserState :=
  let st1 := match startMatch s with
    | some nm =>
      { st with model := { st.model with program_name := some (String.mk nm) } }
    | none => st
  { st1 with model := { st1.model with module_type := some "MAIN" } }

/-- `_parse_compool_start`. -/
def compoolHandler (st : ParserState) (s : List Char) (_i : Nat) : ParserState :=
  let st1 := match compoolMatch s with
    | some nm =>
      { st with model := { st.model with program_name := some (String.mk nm),
                                         module_type := some "COMPOOL" } }
    | none => st
  { st1 with in_compool := true }

/-- `_handle_begin`. -/
def beginHandler (st : ParserState) (i : Nat) : ParserState :=
  let st1 := if st.current_table.isSome then { st with in_table_body := true } else st
  if st1.current_proc.isSome then
    let st2 := { st1 with in_proc_body := true }
    match st2.current_proc with
    | some cp =>
      (match getProc st2.model cp with
       | some p =>
         { st2 with model := { st2.model with
             procs := pySet st2.model.procs cp { p with body_start := i } } }
       | none => st2)
    | none => st2
  else st1

/-- `_handle_end`. -/
def endHandler (st : ParserState) (i : Nat) : ParserState :=
  if st.in_table_body then
    let st1 := { st with in_table_body := false }
    let st2 := match st1.current_table with
      | some ct =>
        (match getTable st1.model ct with
         | some tbl =>
           { st1 with model := { st1.model with
               tables := pySet st1.model.tables ct { tbl with line_end := i } } }
         | none => st1)
      | none => st1
    { st2 with current_table := none }
  else if st.in_proc_body then
    let st1 := { st with in_proc_body := false }
    let st2 := match st1.current_proc with
      | some cp =>
        (match getProc st1.model cp with
         | some p =>
           { st1 with model := { st1.model with
               procs := pySet st1.model.procs cp { p with line_end := i } } }
         | none => st1)
      | none => st1
    { st2 with current_proc := none }
  else st

/-- The dispatch chain of `_parse_statement` over the upper-cased
statement `up`. -/
def dispatchOn (st : ParserState) (s : List Char) (i : Nat) (up : List Char) :
    Except Unit ParserState :=
  if "START".data.isPrefixOf up then .ok (startHandler st s i)
  else if "TERM".data.isPrefixOf up then .ok st
  else if "COMPOOL".data.isPrefixOf up then .ok (compoolHandler st s i)
  else if up = "BEGIN".data then .ok (beginHandler st i)
  else if up = "END".data then .ok (endHandler st i)
  else if "ITEM".data.isPrefixOf up then .ok (itemHandler st s i)
  else if "TABLE".data.isPrefixOf up then tableHandler st s i
  else if "PROC".data.isPrefixOf up then .ok (procHandler st s i)
  else if "TYPE".data.isPrefixOf up then .ok (typeHandler st s i)
  else if "DEFINE".data.isPrefixOf up then .ok (defineHandler st s i)
  else if "DEF".data.isPrefixOf up && !("DEFINE".data.isPrefixOf up) then
    .ok (defHandler st s i)
  else if "REF".data.isPrefixOf up then .ok (refHandler st s i)
  else .ok st

/-- `_parse_statement`: classify by the upper-cased statement and
dispatch, in source order. -/
def parseStatement (st : ParserState) (s : List Char) (i : Nat) :
    Except Unit ParserState :=
  dispatchOn st s i (upperChars s)

/-- `_remove_comments`: a `"` outside a `'…'` string starts a comment to
end of line; apostrophes toggle string mode. -/
def removeComments (l : List Char) : List Char := go l false where
  go : List Char → Bool → List Char
  | [], _ => []
  | c :: cs, inStr =>
    if c = quoteChar && !inStr then []
    else if c = apoChar then c :: go cs (!inStr)
    else c :: go cs inStr

/-- The statement-completion test of the line loop: the stripped line ends
with `;` or is (upper-cased) one of the block markers. -/
def isFlushLine (t : List Char) : Bool :=
  endsSemi t ||
    (upperChars t = "BEGIN".data || upperChars t = "END".data ||
     upperChars t = "START".data || upperChars t = "TERM".data)

/-- The line loop of `parse`, instrumented with the list of dispatched
`(statement, line)` pairs; the Bool is `false` when a statement handler
raised (`ValueError` from `int()`), aborting the loop as an uncaught
Python exception does. -/
def lineLoop (st : ParserState) (ls : List (List Char)) (i : Nat)
    (buf : List Char) : ParserState × Bool × List (List Char × Nat) :=
  match ls with
  | [] => (st, true, [])
  | l :: rest =>
    let st := { st with current_line_num := i }
    let stripped := pyStrip (removeComments l)
    if stripped = [] then lineLoop st rest (i + 1) buf
    else
      let buf' := buf ++ ' ' :: stripped
      if isFlushLine stripped then
        let stmtText := pyStrip buf'
        match parseStatement st stmtText i with
        | .ok st' =>
          let (fin, ok, tr) := lineLoop st' rest (i + 1) []
          (fin, ok, (stmtText, i) :: tr)
        | .error _ => (st, false, [(stmtText, i)])
      else lineLoop st rest (i + 1) buf'

/-- Run the loop from a freshly reset state over the given lines. -/
def parseLinesFull (ls : List (List Char)) :
    ParserState × Bool × List (List Char × Nat) :=
  lineLoop { model := emptyModel, lines := ls, current_line_num := 0,
             in_table_body := false, current_table := none,
             in_proc_body := false, current_proc := none,
             in_compool := false } ls 0 []

/-- `JovialSemanticParser.parse`: reset every field of the parser, split
the text on newlines, run the line loop; returns the parser's final state
and the model (or an error for an uncaught `ValueError`).  The incoming
state is the parser object the method is called on; `parse` overwrites
every field of it before reading anything. -/
def parse (_prev : ParserState) (code : List Char) :
    ParserState × Except Unit JovialSemanticModel :=
  match parseLinesFull (splitOnCh nlChar code) with
  | (st, true, _) => (st, .ok st.model)
  | (st, false, _) => (st, .error ())

/-- The model produced by parsing a list of physical lines. -/
def parseLines (ls : List (List Char)) : Except Unit JovialSemanticModel :=
  match parseLinesFull ls with
  | (st, true, _) => .ok st.model
  | (_, false, _) => .error ()

/-- The model produced by parsing a source text. -/
def parseText (code : String) : Except Unit JovialSemanticModel :=
  (parse initState code.data).2

/-! ## Dictionary lemmas -/

theorem pyGet_pySet_self {α : Type} (d : List (String × α)) (k : String) (v : α) :
    pyGet (pySet d k v) k = some v := by
  induction d with
  | nil => simp [pySet, pyGet]
  | cons p r ih =>
    obtain ⟨k', v'⟩ := p
    by_cases h : k' = k
    · simp [pySet, pyGet, h]
    · simp [pySet, pyGet, h, ih]

theorem pyGet_pySet_ne {α : Type} (d : List (String × α)) (k k2 : String) (v : α)
    (h : k2 ≠ k) : pyGet (pySet d k v) k2 = pyGet d k2 := by
  induction d with
  | nil =>
    simp only [pySet, pyGet]
    rw [if_neg (fun he => h he.symm)]
  | cons p r ih =>
    obtain ⟨k', v'⟩ := p
    by_cases hk : k' = k
    · subst hk
      simp only [pySet, if_pos rfl, pyGet]
      rw [if_neg (fun he : k' = k2 => h he.symm), if_neg (fun he : k' = k2 => h he.symm)]
    · simp only [pySet, if_neg hk, pyGet]
      by_cases hx : k' = k2
      · simp [hx]
      · simp [hx, ih]

/-- Looking up `k` after the double insertion performed by `add_item`
(`items[name] = it; items[key] = it`) yields the item, whatever `key`
was. -/
theorem pyGet_set_set_self {α : Type} (d : List (String × α)) (k k2 : String)
    (v : α) : pyGet (pySet (pySet d k v) k2 v) k = some v := by
  by_cases h : k2 = k
  · subst h; exact pyGet_pySet_self _ _ _
  · rw [pyGet_pySet_ne _ _ _ _ (fun he => h he.symm)]
    exact pyGet_pySet_self _ _ _

theorem mem_pyKeys_pySet {α : Type} (d : List (String × α)) (k x : String)
    (v : α) (hx : x ∈ pyKeys (pySet d k v)) : x = k ∨ x ∈ pyKeys d := by
  induction d with
  | nil => simpa [pySet, pyKeys] using hx
  | cons p r ih =>
    obtain ⟨k', v'⟩ := p
    by_cases h : k' = k
    · subst h
      simp [pySet, pyKeys] at hx ⊢
      tauto
    · simp only [pySet, if_neg h, pyKeys, List.map_cons, List.mem_cons] at hx ⊢
      rcases hx with hx | hx
      · tauto
      · rcases ih hx with h1 | h1 <;> tauto

/-! ## Dispatch lemmas: the first characters of the upper-cased statement
determine the branch of `_parse_statement` taken -/

theorem dispatch_item (st : ParserState) (s : List Char) (i : Nat)
    (hs : "ITEM".data.isPrefixOf (upperChars s) = true) :
    parseStatement st s i = .ok (itemHandler st s i) := by
  have hp := hs
  rw [List.isPrefixOf_iff_prefix] at hp
  obtain ⟨t, ht⟩ := hp
  have ht' : upperChars s = 'I' :: 'T' :: 'E' :: 'M' :: t := ht.symm
  simp only [parseStatement, dispatchOn]
  rw [ht'] at hs ⊢
  rw [show "START".data.isPrefixOf ('I' :: 'T' :: 'E' :: 'M' ::t) = false from rfl,
      show "TERM".data.isPrefixOf ('I' :: 'T' :: 'E' :: 'M' ::t) = false from rfl,
      show "COMPOOL".data.isPrefixOf ('I' :: 'T' :: 'E' :: 'M' ::t) = false from rfl]
  rw [if_neg Bool.false_ne_true, if_neg Bool.false_ne_true,
      if_neg Bool.false_ne_true]
  rw [if_neg (show ¬('I' :: 'T' :: 'E' :: 'M' ::t = "BEGIN".data) by simp),
      if_neg (show ¬('I' :: 'T' :: 'E' :: 'M' ::t = "END".data) by simp)]
  rw [if_pos hs]

theorem dispatch_proc (st : ParserState) (s : List Char) (i : Nat)
    (hs : "PROC".data.isPrefixOf (upperChars s) = true) :
    parseStatement st s i = .ok (procHandler st s i) := by
  have hp := hs
  rw [List.isPrefixOf_iff_prefix] at hp
  obtain ⟨t, ht⟩ := hp
  have ht' : upperChars s = 'P' :: 'R' :: 'O' :: 'C' :: t := ht.symm
  simp only [parseStatement, dispatchOn]
  rw [ht'] at hs ⊢
  rw [show "START".data.isPrefixOf ('P' :: 'R' :: 'O' :: 'C' ::t) = false from rfl,
      show "TERM".data.isPrefixOf ('P' :: 'R' :: 'O' :: 'C' ::t) = false from rfl,
      show "COMPOOL".data.isPrefixOf ('P' :: 'R' :: 'O' :: 'C' ::t) = false from rfl,
      show "ITEM".data.isPrefixOf ('P' :: 'R' :: 'O' :: 'C' ::t) = false from rfl,
      show "TABLE".data.isPrefixOf ('P' :: 'R' :: 'O' :: 'C' ::t) = false from rfl]
  rw [if_neg Bool.false_ne_true, if_neg Bool.false_ne_true,
      if_neg Bool.false_ne_true]
  rw [if_neg (show ¬('P' :: 'R' :: 'O' :: 'C' ::t = "BEGIN".data) by simp),
      if_neg (show ¬('P' :: 'R' :: 'O' :: 'C' ::t = "END".data) by simp)]
  rw [if_neg Bool.false_ne_true, if_neg Bool.false_ne_true]
  rw [if_pos hs]

/-! ## Names recognised by the matchers contain no dot -/

theorem itemMatch_no_dot : ∀ (stmt : List Char) (r : ItemMatch),
    itemMatch stmt = some r → '.' ∉ r.name := by
  intro stmt r h
  unfold itemMatch at h
  cases h0 : ciPrefix "ITEM".data stmt <;> rw [h0] at h
  · simp at h
  · rename_i r0
    simp only [Option.bind_eq_bind, Option.some_bind] at h
    cases h1 : ws1 r0 <;> rw [h1] at h
    · simp at h
    · rename_i r1
      simp only [Option.bind_eq_bind, Option.some_bind] at h
      cases h2 : identRun r1 <;> rw [h2] at h
      · simp at h
      · rename_i pr
        obtain ⟨nm, r2⟩ := pr
        simp only [Option.bind_eq_bind, Option.some_bind] at h
        cases h3 : ws1 r2 <;> rw [h3] at h
        · simp at h
        · rename_i r3
          simp only [Option.bind_eq_bind, Option.some_bind] at h
          rcases hA : attrsGo r3 [] with ⟨reps, pos⟩
          rw [hA] at h
          cases h4 : resolveType reps pos <;> rw [h4] at h
          · simp at h
          · rename_i trip
            obtain ⟨attrs, tcap, r4⟩ := trip
            simp only [Option.bind_eq_bind, Option.some_bind] at h
            simp only [Option.some.injEq] at h
            subst h
            exact identRun_no_dot _ _ _ h2

theorem kindAlt_no_dot : ∀ (w t k nm : List Char),
    kindAlt w t = some (k, nm) → '.' ∉ nm := by
  intro w t k nm h
  unfold kindAlt at h
  cases h0 : tryLit w t <;> rw [h0] at h
  · simp at h
  · rename_i pr
    obtain ⟨cap, r⟩ := pr
    simp only [Option.bind_eq_bind, Option.some_bind] at h
    cases h1 : identRun (r.dropWhile isPyWs) <;> rw [h1] at h
    · simp at h
    · rename_i pr2
      obtain ⟨nm2, r2⟩ := pr2
      simp only [Option.bind_eq_bind, Option.some_bind] at h
      simp only [Option.some.injEq, Prod.mk.injEq] at h
      obtain ⟨_, h2⟩ := h
      subst h2
      exact identRun_no_dot _ _ _ h1

theorem kindName_no_dot : ∀ (t : List Char) (k : Option (List Char))
    (nm : List Char), kindName t = some (k, nm) → '.' ∉ nm := by
  intro t k nm h
  unfold kindName at h
  split at h
  · rename_i k1 nm1 h1
    simp only [Option.some.injEq, Prod.mk.injEq] at h
    obtain ⟨_, h2⟩ := h
    subst h2
    exact kindAlt_no_dot _ _ _ _ h1
  · split at h
    · rename_i k1 nm1 h1
      simp only [Option.some.injEq, Prod.mk.injEq] at h
      obtain ⟨_, h2⟩ := h
      subst h2
      exact kindAlt_no_dot _ _ _ _ h1
    · split at h
      · rename_i k1 nm1 h1
        simp only [Option.some.injEq, Prod.mk.injEq] at h
        obtain ⟨_, h2⟩ := h
        subst h2
        exact kindAlt_no_dot _ _ _ _ h1
      · split at h
        · rename_i nm1 r1 h1
          simp only [Option.some.injEq, Prod.mk.injEq] at h
          obtain ⟨_, h2⟩ := h
          subst h2
          exact identRun_no_dot _ _ _ h1
        · exact absurd h (by simp)

theorem defMatch_no_dot : ∀ (stmt : List Char) (k : Option (List Char))
    (nm : List Char), defMatch stmt = some (k, nm) → '.' ∉ nm := by
  intro stmt k nm h
  unfold defMatch at h
  cases h0 : ciPrefix "DEF".data stmt <;> rw [h0] at h
  · simp at h
  · rename_i r0
    simp only [Option.bind_eq_bind, Option.some_bind] at h
    cases h1 : ws1 r0 <;> rw [h1] at h
    · simp at h
    · rename_i r1
      simp only [Option.bind_eq_bind, Option.some_bind] at h
      exact kindName_no_dot _ _ _ h

/-! ## The scope/key invariant: `current_scope` stays `"GLOBAL"` and item
keys never contain a dot -/

/-- Invariant maintained by every statement handler. -/
def ScopeInv (m : JovialSemanticModel) : Prop :=
  m.current_scope = "GLOBAL" ∧ ∀ k ∈ pyKeys m.items, '.' ∉ k.data

theorem addItem_inv (m : JovialSemanticModel) (it : ItemDefinition)
    (h : ScopeInv m) (hn : '.' ∉ it.name.data) : ScopeInv (addItem m it) := by
  obtain ⟨hsc, hkeys⟩ := h
  unfold addItem
  rw [hsc]
  simp only [ne_eq, not_true_eq_false, if_neg, ite_false]
  refine ⟨rfl, ?_⟩
  intro k hk
  rcases mem_pyKeys_pySet _ _ _ _ hk with h1 | h1
  · subst h1; exact hn
  · rcases mem_pyKeys_pySet _ _ _ _ h1 with h2 | h2
    · subst h2; exact hn
    · exact hkeys k h2

theorem placeItem_pres (st : ParserState) (item : ItemDefinition) :
    (placeItem st item).model.items = st.model.items ∧
    (placeItem st item).model.current_scope = st.model.current_scope := by
  unfold placeItem
  split
  · split
    · split <;> exact ⟨rfl, rfl⟩
    · exact ⟨rfl, rfl⟩
  · split
    · split
      · split <;> exact ⟨rfl, rfl⟩
      · exact ⟨rfl, rfl⟩
    · exact ⟨rfl, rfl⟩

theorem inv_of_pres {m m' : JovialSemanticModel}
    (h1 : m'.items = m.items) (h2 : m'.current_scope = m.current_scope)
    (h : ScopeInv m) : ScopeInv m' := by
  obtain ⟨hsc, hkeys⟩ := h
  exact ⟨h2.trans hsc, by rw [h1]; exact hkeys⟩

theorem itemHandler_inv (st : ParserState) (s : List Char) (i : Nat)
    (h : ScopeInv st.model) : ScopeInv (itemHandler st s i).model := by
  simp only [itemHandler]
  cases hm : itemMatch (pyStrip (pyRstripSemis s)) with
  | none => exact h
  | some r =>
    have hname : '.' ∉ (buildItem s i st.current_table r).name.data := by
      have := itemMatch_no_dot _ _ hm
      simpa [buildItem] using this
    have hpres := placeItem_pres st (buildItem s i st.current_table r)
    exact addItem_inv _ _ (inv_of_pres hpres.1 hpres.2 h) hname

theorem defHandler_inv (st : ParserState) (s : List Char) (i : Nat)
    (h : ScopeInv st.model) : ScopeInv (defHandler st s i).model := by
  simp only [defHandler]
  cases hm : defMatch (pyStrip (pyRstripSemis s)) with
  | none => exact h
  | some kn =>
    obtain ⟨kindOpt, nm⟩ := kn
    have hname : '.' ∉ nm := defMatch_no_dot _ _ _ hm
    have hstub : ScopeInv (defStub st i kindOpt nm).model := by
      unfold defStub
      by_cases hc : Option.map upperChars kindOpt = some "ITEM".data ∨
          Option.map upperChars kindOpt = none
      · rw [if_pos hc]
        refine addItem_inv _ _ h ?_
        simpa using hname
      · rw [if_neg hc]
        exact h
    exact hstub

theorem tableHandler_pres (st : ParserState) (s : List Char) (i : Nat)
    (st' : ParserState) (hok : tableHandler st s i = .ok st') :
    st'.model.items = st.model.items ∧
    st'.model.current_scope = st.model.current_scope := by
  simp only [tableHandler] at hok
  split at hok
  · cases hok; exact ⟨rfl, rfl⟩
  · split at hok
    · exact Except.noConfusion hok
    · cases hok; exact ⟨rfl, rfl⟩

theorem procHandler_pres (st : ParserState) (s : List Char) (i : Nat) :
    (procHandler st s i).model.items = st.model.items ∧
    (procHandler st s i).model.current_scope = st.model.current_scope := by
  simp only [procHandler]
  repeat' split
  all_goals exact ⟨rfl, rfl⟩

theorem typeHandler_pres (st : ParserState) (s : List Char) (i : Nat) :
    (typeHandler st s i).model.items = st.model.items ∧
    (typeHandler st s i).model.current_scope = st.model.current_scope := by
  simp only [typeHandler]
  repeat' split
  all_goals exact ⟨rfl, rfl⟩

theorem defineHandler_pres (st : ParserState) (s : List Char) (i : Nat) :
    (defineHandler st s i).model.items = st.model.items ∧
    (defineHandler st s i).model.current_scope = st.model.current_scope := by
  simp only [defineHandler]
  repeat' split
  all_goals exact ⟨rfl, rfl⟩

theorem refHandler_pres (st : ParserState) (s : List Char) (i : Nat) :
    (refHandler st s i).model.items = st.model.items ∧
    (refHandler st s i).model.current_scope = st.model.current_scope := by
  simp only [refHandler]
  repeat' split
  all_goals exact ⟨rfl, rfl⟩

theorem startHandler_pres (st : ParserState) (s : List Char) (i : Nat) :
    (startHandler st s i).model.items = st.model.items ∧
    (startHandler st s i).model.current_scope = st.model.current_scope := by
  simp only [startHandler]
  repeat' split
  all_goals exact ⟨rfl, rfl⟩

theorem compoolHandler_pres (st : ParserState) (s : List Char) (i : Nat) :
    (compoolHandler st s i).model.items = st.model.items ∧
    (compoolHandler st s i).model.current_scope = st.model.current_scope := by
  simp only [compoolHandler]
  repeat' split
  all_goals exact ⟨rfl, rfl⟩

theorem beginHandler_pres (st : ParserState) (i : Nat) :
    (beginHandler st i).model.items = st.model.items ∧
    (beginHandler st i).model.current_scope = st.model.current_scope := by
  simp only [beginHandler]
  repeat' split
  all_goals exact ⟨rfl, rfl⟩

theorem endHandler_pres (st : ParserState) (i : Nat) :
    (endHandler st i).model.items = st.model.items ∧
    (endHandler st i).model.current_scope = st.model.current_scope := by
  simp only [endHandler]
  repeat' split
  all_goals exact ⟨rfl, rfl⟩

theorem parseStatement_inv (st : ParserState) (s : List Char) (i : Nat)
    (st' : ParserState) (hok : parseStatement st s i = .ok st')
    (h : ScopeInv st.model) : ScopeInv st'.model := by
  unfold parseStatement dispatchOn at hok
  by_cases c0 : "START".data.isPrefixOf (upperChars s) = true
  · rw [if_pos c0] at hok
    cases hok
    exact inv_of_pres (startHandler_pres st s i).1 (startHandler_pres st s i).2 h
  · rw [if_neg c0] at hok
    by_cases c1 : "TERM".data.isPrefixOf (upperChars s) = true
    · rw [if_pos c1] at hok
      cases hok
      exact h
    · rw [if_neg c1] at hok
      by_cases c2 : "COMPOOL".data.isPrefixOf (upperChars s) = true
      · rw [if_pos c2] at hok
        cases hok
        exact inv_of_pres (compoolHandler_pres st s i).1 (compoolHandler_pres st s i).2 h
      · rw [if_neg c2] at hok
        by_cases c3 : upperChars s = "BEGIN".data
        · rw [if_pos c3] at hok
          cases hok
          exact inv_of_pres (beginHandler_pres st i).1 (beginHandler_pres st i).2 h
        · rw [if_neg c3] at hok
          by_cases c4 : upperChars s = "END".data
          · rw [if_pos c4] at hok
            cases hok
            exact inv_of_pres (endHandler_pres st i).1 (endHandler_pres st i).2 h
          · rw [if_neg c4] at hok
            by_cases c5 : "ITEM".data.isPrefixOf (upperChars s) = true
            · rw [if_pos c5] at hok
              cases hok
              exact itemHandler_inv st s i h
            · rw [if_neg c5] at hok
              by_cases c6 : "TABLE".data.isPrefixOf (upperChars s) = true
              · rw [if_pos c6] at hok
                have := tableHandler_pres st s i st' hok
                exact inv_of_pres this.1 this.2 h
              · rw [if_neg c6] at hok
                by_cases c7 : "PROC".data.isPrefixOf (upperChars s) = true
                · rw [if_pos c7] at hok
                  cases hok
                  exact inv_of_pres (procHandler_pres st s i).1 (procHandler_pres st s i).2 h
                · rw [if_neg c7] at hok
                  by_cases c8 : "TYPE".data.isPrefixOf (upperChars s) = true
                  · rw [if_pos c8] at hok
                    cases hok
                    exact inv_of_pres (typeHandler_pres st s i).1 (typeHandler_pres st s i).2 h
                  · rw [if_neg c8] at hok
                    by_cases c9 : "DEFINE".data.isPrefixOf (upperChars s) = true
                    · rw [if_pos c9] at hok
                      cases hok
                      exact inv_of_pres (defineHandler_pres st s i).1 (defineHandler_pres st s i).2 h
                    · rw [if_neg c9] at hok
                      by_cases c10 : ("DEF".data.isPrefixOf (upperChars s) && !"DEFINE".data.isPrefixOf (upperChars s)) = true
                      · rw [if_pos c10] at hok
                        cases hok
                        exact defHandler_inv st s i h
                      · rw [if_neg c10] at hok
                        by_cases c11 : "REF".data.isPrefixOf (upperChars s) = true
                        · rw [if_pos c11] at hok
                          cases hok
                          exact inv_of_pres (refHandler_pres st s i).1 (refHandler_pres st s i).2 h
                        · rw [if_neg c11] at hok
                          cases hok
                          exact h

theorem lineLoop_inv : ∀ (ls : List (List Char)) (st : ParserState) (i : Nat)
    (buf : List Char) (st' : ParserState) (tr : List (List Char × Nat)),
    lineLoop st ls i buf = (st', true, tr) → ScopeInv st.model →
    ScopeInv st'.model := by
  intro ls
  induction ls with
  | nil =>
    intro st i buf st' tr h hInv
    simp only [lineLoop, Prod.mk.injEq] at h
    rw [← h.1]
    exact hInv
  | cons l rest ih =>
    intro st i buf st' tr h hInv
    simp only [lineLoop] at h
    by_cases hstr : pyStrip (removeComments l) = []
    · rw [if_pos hstr] at h
      exact ih _ _ _ _ _ h hInv
    · rw [if_neg hstr] at h
      by_cases hfl : isFlushLine (pyStrip (removeComments l)) = true
      · rw [if_pos hfl] at h
        split at h
        · rename_i st2 hps
          rcases hrec : lineLoop st2 rest (i + 1) [] with ⟨fin, okb, tr2⟩
          rw [hrec] at h
          simp only [Prod.mk.injEq] at h
          obtain ⟨h1, h2, _⟩ := h
          subst h1
          subst h2
          exact ih _ _ _ _ _ hrec (parseStatement_inv _ _ _ _ hps hInv)
        · simp at h
      · rw [if_neg hfl] at h
        exact ih _ _ _ _ _ h hInv

/-- Every model returned by `parse` satisfies the invariant. -/
theorem parseText_inv (code : String) (m : JovialSemanticModel)
    (h : parseText code = .ok m) : ScopeInv m := by
  unfold parseText parse parseLinesFull at h
  rcases hll : lineLoop
      ({ model := emptyModel, lines := splitOnCh nlChar code.data,
         current_line_num := 0, in_table_body := false, current_table := none,
         in_proc_body := false, current_proc := none, in_compool := false } :
        ParserState)
      (splitOnCh nlChar code.data) 0 [] with ⟨stf, okb, tr⟩
  rw [hll] at h
  cases okb with
  | false => simp at h
  | true =>
    simp only [Except.ok.injEq] at h
    subst h
    exact lineLoop_inv _ _ _ _ _ _ hll ⟨rfl, by simp [emptyModel, pyKeys]⟩

/-- A dotted query never hits a dot-free key table. -/
theorem pyGet_none_of_dot {α : Type} (d : List (String × α)) (q : String)
    (hk : ∀ k ∈ pyKeys d, '.' ∉ k.data) (hq : '.' ∈ q.data) :
    pyGet d q = none := by
  induction d with
  | nil => rfl
  | cons p r ih =>
    obtain ⟨k', v'⟩ := p
    have h1 : '.' ∉ k'.data := hk k' (by simp [pyKeys])
    have hne : k' ≠ q := fun he => h1 (he ▸ hq)
    simp only [pyGet, if_neg hne]
    refine ih (fun k hkk => hk k ?_)
    simp only [pyKeys, List.map_cons, List.mem_cons]
    right
    simpa [pyKeys] using hkk


/-! ## Claims -/

/-- Claim C1, counterexample: for the source `ITEM alt S 1;` the model
stores the item under its source casing `alt`; folding the query to upper
case (`"alt".toUpper = "ALT"`) resolves nothing, while the stored casing
resolves the item — so case-insensitive lookup fails as claimed. -/
theorem C1_counterexample :
    (parseText "ITEM alt S 1;").map
      (fun m => (getItem m (String.mk (upperChars "alt".data)),
                 (getItem m "alt").isSome)) = .ok (none, true) ∧
    String.mk (upperChars "alt".data) = "ALT" ∧ ("alt" : String) ≠ "ALT" :=
  ⟨rfl, rfl, by decide⟩

/-- Claim C1 (amended): lookups are exact, case-sensitive dictionary
accesses: in every model produced by `parse`, `get_item` returns exactly
the `items` entry stored under the query string (its scoped branch never
fires because item keys contain no dot), and `get_table` / `get_proc` are
plain map lookups; a query folded to upper case therefore resolves a
declaration only when the declared casing is itself upper case. -/
theorem C1_lookups_are_exact (code : String) (m : JovialSemanticModel)
    (hm : parseText code = .ok m) (n : String) :
    getItem m n = pyGet m.items n ∧
    getTable m n = pyGet m.tables n ∧
    getProc m n = pyGet m.procs n := by
  obtain ⟨hsc, hkeys⟩ := parseText_inv code m hm
  refine ⟨?_, rfl, rfl⟩
  simp only [getItem]
  rw [hsc]
  have hnone : pyGet m.items ("GLOBAL" ++ "." ++ n) = none := by
    refine pyGet_none_of_dot m.items _ hkeys ?_
    rw [String.data_append, String.data_append]
    simp
  rw [hnone]

/-- Claim C1, witness. -/
theorem C1_witness :
    getItem ((parseText "ITEM alt S 1;").toOption.getD emptyModel) "alt" =
      pyGet ((parseText "ITEM alt S 1;").toOption.getD emptyModel).items "alt" :=
  (C1_lookups_are_exact "ITEM alt S 1;" _ rfl "alt").1

/-- Claim C3, counterexample: parsing `ITEM alt S 1;` and `TABLE ALT (1);`
puts both `alt` and `ALT` into `get_all_symbols` — two distinct elements
that are equal after case folding, because `list(set(...))` de-duplicates
by exact string, not case-insensitively. -/
theorem C3_counterexample :
    (parseLines ["ITEM alt S 1;".data, "TABLE ALT (1);".data]).map
        (fun m => ((getAllSymbols m).contains "alt",
                   (getAllSymbols m).contains "ALT")) = .ok (true, true) ∧
    ("alt" : String) ≠ "ALT" ∧ upperChars "alt".data = upperChars "ALT".data :=
  ⟨rfl, by decide, rfl⟩

/-- Claim C3 (amended): `get_all_symbols` returns exactly the union of the
item, table, proc and define names de-duplicated by exact string equality
(case-sensitively): the result has no two equal elements and contains a
string iff it is a key of one of the four maps; names differing only in
case appear separately. -/
theorem C3_symbols_union_exact_dedup (m : JovialSemanticModel) :
    (getAllSymbols m).Nodup ∧
    ∀ s : String, s ∈ getAllSymbols m ↔
      (s ∈ pyKeys m.items ∨ s ∈ pyKeys m.tables ∨ s ∈ pyKeys m.procs ∨
       s ∈ pyKeys m.defines) := by
  refine ⟨List.nodup_dedup _, fun s => ?_⟩
  unfold getAllSymbols
  rw [List.mem_dedup]
  simp [or_assoc]

/-- Claim C4, counterexample: for the single-line source
`  ITEM ALT S 1;` (two leading blanks) the recorded span is `[5, 8)` —
computed inside the comment-stripped, whitespace-stripped statement
buffer — while `find` within the final physical source line gives `7`. -/
theorem C4_counterexample :
    (parseText "  ITEM ALT S 1;").map
      (fun m => (pyGet m.items "ALT").map
        (fun it => (it.column_start, it.column_end))) = .ok (some (5, 8)) ∧
    pyFind "  ITEM ALT S 1;".data "ALT".data = 7 ∧ (5 : Int) ≠ 7 :=
  ⟨rfl, rfl, by decide⟩

/-- Claim C4 (amended): for every recognised ITEM declaration the recorded
column span is `[s.upper().find(name), s.upper().find(name) + len(name))`
computed within the dispatched statement text `s` (the comment-stripped,
stripped lines of the statement joined by single spaces), with the name
searched in its source casing inside the upper-cased buffer (so the span
starts at `-1` for a name that is not fully upper-case) — not within the
final physical line; `line_number` is the statement's last line. -/
theorem C4_column_span_in_statement_buffer (st : ParserState) (s : List Char)
    (i : Nat) (r : ItemMatch)
    (hm : itemMatch (pyStrip (pyRstripSemis s)) = some r) :
    ∃ it : ItemDefinition,
      pyGet (itemHandler st s i).model.items (String.mk r.name) = some it ∧
      it.column_start = pyFind (upperChars s) r.name ∧
      it.column_end = pyFind (upperChars s) r.name + r.name.length ∧
      it.line_number = i := by
  simp only [itemHandler]
  rw [hm]
  refine ⟨buildItem s i st.current_table r, ?_, rfl, rfl, rfl⟩
  show pyGet (addItem (placeItem st (buildItem s i st.current_table r)).model
      (buildItem s i st.current_table r)).items (String.mk r.name) =
    some (buildItem s i st.current_table r)
  simp only [addItem]
  exact pyGet_set_set_self _ _ _ _

/-- Claim C4, witness. -/
theorem C4_witness :
    (pyGet (itemHandler initState "ITEM ALT S 1;".data 0).model.items
        "ALT").map (fun it => (it.column_start, it.column_end)) =
      some (5, 8) := by
  obtain ⟨it, h1, h2, h3, _⟩ :=
    C4_column_span_in_statement_buffer initState "ITEM ALT S 1;".data 0
      ⟨"ALT".data, [], "S".data, some "1".data, []⟩ (by rfl)
  simp only [show String.mk "ALT".data = "ALT" from rfl] at h1
  rw [h1]
  simp only [Option.map_some']
  rw [h2, h3]
  rfl

/-- Claim C7: the claim says a table bound that does not parse as an
integer falls back to `0`, but `'--5'.lstrip('-').isdigit()` passes the
guard and `int('--5')` raises `ValueError`, so `parse` raises instead of
defaulting; a bound like `X` that fails the guard does fall back to `0`. -/
theorem C7_double_minus_bound_raises :
    parseText "TABLE T (--5:1);" = .error () ∧
    (parseText "TABLE T (X:1);").map
      (fun m => (pyGet m.tables "T").map (·.dimensions)) = .ok (some [(0, 1)]) :=
  ⟨rfl, rfl⟩

/-- Claim C8: the ITEM type alternation `(S|U|F|A|B|C|P|STATUS)` tries `S`
first and the rest of the pattern always matches, so `STATUS` is captured
as `S`: an `ITEM ... STATUS (V(...))` declaration is recorded with type
SIGNED and empty `status_values`, even though the `V(name)` scanner would
have found the values in the buffer. -/
theorem C8_status_items_recorded_as_signed :
    (parseText "ITEM MODE STATUS (V(NORMAL), V(WARN));").map
      (fun m => (pyGet m.items "MODE").map
        (fun it => (it.type, it.status_values))) =
      .ok (some (JovialType.SIGNED, [])) ∧
    findVs "ITEM MODE STATUS (V(NORMAL), V(WARN));".data = ["NORMAL", "WARN"] :=
  ⟨rfl, rfl⟩

/-- Claim C9: `parse` is deterministic and stateless across calls: the
returned model depends only on the input text — two parser states given
byte-equal inputs return equal results, and calling `parse` again on the
same parser object (whose fields the first call mutated) returns the same
result, because `parse` overwrites every field of the parser before
reading anything. -/
theorem C9_parse_stateless (s1 s2 : ParserState) (code : List Char) :
    (parse s1 code).2 = (parse s2 code).2 ∧
    (parse (parse s1 code).1 code).2 = (parse s1 code).2 :=
  ⟨rfl, rfl⟩

/-- Claim C10: in every model produced by `parse`, `current_scope` is
still `"GLOBAL"` (it is initialised there and never reassigned), so
`add_item`'s scoped-key branch never fires and no key of the `items`
mapping contains a `'.'` character. -/
theorem C10_no_dotted_item_keys (code : String) (m : JovialSemanticModel)
    (hm : parseText code = .ok m) :
    m.current_scope = "GLOBAL" ∧ ∀ k ∈ pyKeys m.items, '.' ∉ k.data :=
  parseText_inv code m hm

/-- Claim C10, witness. -/
theorem C10_witness :
    pyKeys ((parseText "ITEM A S 1;").toOption.getD emptyModel).items =
      ["A"] ∧ '.' ∉ ("A" : String).data :=
  ⟨rfl, (C10_no_dotted_item_keys "ITEM A S 1;" _ rfl).2 "A" (by decide)⟩


/-- Claim C2: for every ITEM declaration parsed while inside a table body
(`in_table_body` set, `current_table = T`, `T` present in the tables map),
the recognised item is stored both in the owning table's `entries` under
its name and in the model's top-level `items` under the same name; the two
slots hold the same item value, whose `parent_table` is the owning table's
name. -/
theorem C2_table_item_dual_insert (st : ParserState) (s : List Char) (i : Nat)
    (T : String) (tbl : TableDefinition) (r : ItemMatch)
    (hbody : st.in_table_body = true) (hct : st.current_table = some T)
    (htbl : pyGet st.model.tables T = some tbl)
    (hm : itemMatch (pyStrip (pyRstripSemis s)) = some r) :
    ∃ it tbl',
      pyGet (itemHandler st s i).model.tables T = some tbl' ∧
      pyGet tbl'.entries (String.mk r.name) = some it ∧
      pyGet (itemHandler st s i).model.items (String.mk r.name) = some it ∧
      it.parent_table = some T := by
  have hplace : placeItem st (buildItem s i st.current_table r) =
      { st with model := { st.model with tables := pySet st.model.tables T ({ tbl with entries := pySet tbl.entries (buildItem s i st.current_table r).name (buildItem s i st.current_table r) }) } } := by
    simp only [placeItem, hct, hbody, getTable, htbl, Option.isSome_some,
      Bool.and_self, if_pos]
  simp only [itemHandler]
  rw [hm]
  show ∃ it tbl',
      pyGet (addItem (placeItem st (buildItem s i st.current_table r)).model
        (buildItem s i st.current_table r)).tables T = some tbl' ∧ _
  rw [hplace]
  simp only [addItem]
  refine ⟨buildItem s i st.current_table r, ({ tbl with entries := pySet tbl.entries (buildItem s i st.current_table r).name (buildItem s i st.current_table r) }), ?_, ?_, ?_, ?_⟩
  · exact pyGet_pySet_self _ _ _
  · exact pyGet_pySet_self _ _ _
  · exact pyGet_set_set_self _ _ _ _
  · simp only [buildItem, hct]

/-- The parser state used to witness claim C2: a freshly declared table
`W` whose `BEGIN` has been seen. -/
def tableCtxState : ParserState :=
  { initState with
      model := { emptyModel with
        tables := [("W", { name := "W", dimensions := [(1, 3)] })] },
      in_table_body := true, current_table := some "W" }

/-- Claim C2, witness. -/
theorem C2_witness :
    ((pyGet (itemHandler tableCtxState "ITEM LAT F 32;".data 2).model.tables
        "W").bind (fun t => pyGet t.entries "LAT")) =
      pyGet (itemHandler tableCtxState "ITEM LAT F 32;".data 2).model.items
        "LAT" ∧
    (pyGet (itemHandler tableCtxState "ITEM LAT F 32;".data 2).model.items
        "LAT").map (·.parent_table) = some (some "W") := by
  obtain ⟨it, tbl', h1, h2, h3, h4⟩ :=
    C2_table_item_dual_insert tableCtxState "ITEM LAT F 32;".data 2 "W"
      { name := "W", dimensions := [(1, 3)] }
      ⟨"LAT".data, [], "F".data, some "32".data, []⟩ rfl rfl rfl (by rfl)
  try simp only [show String.mk "LAT".data = "LAT" from rfl] at h2 h3
  rw [h1, h3]
  constructor
  · simp only [Option.some_bind]
    rw [h2]
  · simp only [Option.map_some']
    rw [h4]


/-- Claim C6, counterexample: in `PROC P (A : B : C);` the parameter `C`
stands after a colon, yet the recorded parameters are only
`[(A, IN), (B, OUT)]` — `params_str.split(':')` produces three sections
and the code reads only sections 0 and 1, silently dropping `C`. -/
theorem C6_counterexample :
    (parseText "PROC P (A : B : C);").map
      (fun m => (pyGet m.procs "P").map (·.parameters)) =
      .ok (some [("A", "IN"), ("B", "OUT")]) ∧
    (("C", "OUT") : String × String) ∉
      [(("A" : String), ("IN" : String)), ("B", "OUT")] :=
  ⟨rfl, by decide⟩

/-- Claim C6 (amended): for every recognised PROC declaration, an empty or
absent parameter list yields no parameters; without a colon every
comma-separated (stripped, nonempty) parameter gets mode INOUT; with a
colon, the parameters before the first colon get mode IN and the
parameters between the first and the second colon get mode OUT, in source
order — anything after a second colon is discarded. -/
theorem C6_params_from_first_two_sections (st : ParserState) (s : List Char)
    (i : Nat) (nm : List Char) (psOpt : Option (List Char)) (rest : List Char)
    (hs : "PROC".data.isPrefixOf (upperChars s) = true)
    (hm : procMatch (pyStrip (pyRstripSemis s)) = some (nm, psOpt, rest)) :
    ∃ st' proc, parseStatement st s i = .ok st' ∧
      pyGet st'.model.procs (String.mk nm) = some proc ∧
      proc.line_start = i ∧
      (psOpt.getD [] = [] → proc.parameters = []) ∧
      (psOpt.getD [] ≠ [] → (psOpt.getD []).contains ':' = false →
        proc.parameters =
          (((splitOnCh ',' (psOpt.getD [])).map pyStrip).filter (· ≠ [])).map
            (fun q => (String.mk q, "INOUT"))) ∧
      ((psOpt.getD []).contains ':' = true →
        proc.parameters =
          (((splitOnCh ',' ((splitOnCh ':' (psOpt.getD [])).headD [])).map
              pyStrip).filter (· ≠ [])).map (fun q => (String.mk q, "IN")) ++
          (((splitOnCh ',' (((splitOnCh ':' (psOpt.getD [])).drop 1).headD
              [])).map pyStrip).filter (· ≠ [])).map
            (fun q => (String.mk q, "OUT"))) := by
  rw [dispatch_proc st s i hs]
  refine ⟨procHandler st s i,
    { name := String.mk nm, parameters := procParams psOpt, line_start := i },
    rfl, ?_, rfl, ?_, ?_, ?_⟩
  · simp only [procHandler]
    rw [hm]
    exact pyGet_pySet_self _ _ _
  · intro he
    simp only [procParams, he]
    rfl
  · intro hne hcol
    simp only [procParams]
    rw [if_neg hne, if_neg (by rw [hcol]; exact Bool.false_ne_true)]
  · intro hcol
    have hne : psOpt.getD [] ≠ [] := fun he => by
      rw [he] at hcol
      exact absurd hcol (by decide)
    simp only [procParams]
    rw [if_neg hne, if_pos hcol]

/-- Claim C6, witness: the claim's own example
`PROC UPDATE'POS (NEW'LAT, NEW'LON : DISTANCE);`. -/
theorem C6_witness :
    ((parseStatement initState
        "PROC UPDATE'POS (NEW'LAT, NEW'LON : DISTANCE);".data 0).toOption.bind
      (fun st' => pyGet st'.model.procs "UPDATE'POS")).map (·.parameters) =
      some [("NEW'LAT", "IN"), ("NEW'LON", "IN"), ("DISTANCE", "OUT")] := by
  obtain ⟨st', proc, hok, hget, _, _, _, hcolon⟩ :=
    C6_params_from_first_two_sections initState
      "PROC UPDATE'POS (NEW'LAT, NEW'LON : DISTANCE);".data 0
      "UPDATE'POS".data (some "NEW'LAT, NEW'LON : DISTANCE".data) []
      (by rfl) (by rfl)
  rw [hok]
  simp only [Except.toOption, Option.some_bind]
  try simp only [show String.mk "UPDATE'POS".data = "UPDATE'POS" from rfl]
      at hget
  rw [hget]
  simp only [Option.map_some']
  rw [hcolon (by rfl)]
  rfl


theorem lineLoop_trace_ge : ∀ (ls : List (List Char)) (st : ParserState)
    (i : Nat) (buf b : List Char) (j : Nat),
    (b, j) ∈ (lineLoop st ls i buf).2.2 → i ≤ j := by
  intro ls
  induction ls with
  | nil =>
    intro st i buf b j h
    simp [lineLoop] at h
  | cons l rest ih =>
    intro st i buf b j h
    simp only [lineLoop] at h
    by_cases hstr : pyStrip (removeComments l) = []
    · rw [if_pos hstr] at h
      exact Nat.le_of_succ_le (ih _ _ _ _ _ h)
    · rw [if_neg hstr] at h
      by_cases hfl : isFlushLine (pyStrip (removeComments l)) = true
      · rw [if_pos hfl] at h
        split at h
        · rename_i st2 hps
          simp only [List.mem_cons] at h
          rcases h with h | h
          · simp only [Prod.mk.injEq] at h
            omega
          · exact Nat.le_of_succ_le (ih _ _ _ _ _ h)
        · rename_i e hps
          simp only [List.mem_singleton, Prod.mk.injEq] at h
          omega
      · rw [if_neg hfl] at h
        exact Nat.le_of_succ_le (ih _ _ _ _ _ h)


theorem lineLoop_trace_iff : ∀ (ls : List (List Char)) (st : ParserState)
    (i : Nat) (buf : List Char) (j : Nat),
    (lineLoop st ls i buf).2.1 = true →
    ((∃ b, (b, i + j) ∈ (lineLoop st ls i buf).2.2) ↔
      ∃ l, ls.get? j = some l ∧ pyStrip (removeComments l) ≠ [] ∧
        isFlushLine (pyStrip (removeComments l)) = true) := by
  intro ls
  induction ls with
  | nil =>
    intro st i buf j hok
    simp [lineLoop]
  | cons l rest ih =>
    intro st i buf j hok
    simp only [lineLoop] at hok ⊢
    by_cases hstr : pyStrip (removeComments l) = []
    · rw [if_pos hstr] at hok ⊢
      cases j with
      | zero =>
        simp only [List.get?_cons_zero, Option.some.injEq]
        constructor
        · rintro ⟨b, hb⟩
          have := lineLoop_trace_ge rest _ (i + 1) buf b (i + 0) hb
          omega
        · rintro ⟨l', hl', hne, _⟩
          subst hl'
          exact absurd hstr hne
      | succ j' =>
        have hrec := ih { st with current_line_num := i } (i + 1) buf j' hok
        rw [show i + (j' + 1) = (i + 1) + j' by omega]
        simpa only [List.get?_cons_succ] using hrec
    · rw [if_neg hstr] at hok ⊢
      by_cases hfl : isFlushLine (pyStrip (removeComments l)) = true
      · rw [if_pos hfl] at hok ⊢
        split at hok
        · rename_i st2 hps
          simp only [List.mem_cons] at hok ⊢
          cases j with
          | zero =>
            simp only [List.get?_cons_zero, Option.some.injEq]
            constructor
            · intro _
              exact ⟨l, rfl, hstr, hfl⟩
            · intro _
              exact ⟨pyStrip (buf ++ ' ' :: pyStrip (removeComments l)),
                Or.inl (by simp)⟩
          | succ j' =>
            have hrec := ih st2 (i + 1) [] j' hok
            simp only [List.get?_cons_succ]
            rw [show i + (j' + 1) = (i + 1) + j' by omega]
            rw [← hrec]
            constructor
            · rintro ⟨b, hb | hb⟩
              · simp only [Prod.mk.injEq] at hb
                omega
              · exact ⟨b, hb⟩
            · rintro ⟨b, hb⟩
              exact ⟨b, Or.inr hb⟩
        · rename_i e hps
          simp at hok
      · rw [if_neg hfl] at hok ⊢
        cases j with
        | zero =>
          simp only [List.get?_cons_zero, Option.some.injEq]
          constructor
          · rintro ⟨b, hb⟩
            have := lineLoop_trace_ge rest _ (i + 1) _ b (i + 0) hb
            omega
          · rintro ⟨l', hl', hne, hfl'⟩
            subst hl'
            exact absurd hfl' hfl
        | succ j' =>
          have hrec := ih { st with current_line_num := i } (i + 1)
            (buf ++ ' ' :: pyStrip (removeComments l)) j' hok
          rw [show i + (j' + 1) = (i + 1) + j' by omega]
          simpa only [List.get?_cons_succ] using hrec


theorem pySet_pySet_same {α : Type} (d : List (String × α)) (k : String)
    (v : α) : pySet (pySet d k v) k v = pySet d k v := by
  induction d with
  | nil => simp [pySet]
  | cons p r ih =>
    obtain ⟨k', v'⟩ := p
    by_cases h : k' = k
    · simp [pySet, h]
    · simp [pySet, h, ih]

/-- On a GLOBAL-scope model, `add_item`'s two insertions collapse to one
under the item's name. -/
theorem addItem_items_global (m : JovialSemanticModel) (it : ItemDefinition)
    (hsc : m.current_scope = "GLOBAL") :
    (addItem m it).items = pySet m.items it.name it := by
  simp only [addItem, hsc, ne_eq, not_true_eq_false, if_neg, ite_false]
  exact pySet_pySet_same _ _ _

/-- The Bool statement-completion test, as the explicit disjunction of the
claim. -/
theorem isFlushLine_iff (t : List Char) : isFlushLine t = true ↔
    (endsSemi t = true ∨ upperChars t = "BEGIN".data ∨
     upperChars t = "END".data ∨ upperChars t = "START".data ∨
     upperChars t = "TERM".data) := by
  simp [isFlushLine, Bool.or_eq_true, decide_eq_true_eq, or_assoc]

/-- Claim C5: (a) the line loop accumulates physical lines into a
statement buffer and — in a parse that completes without raising — a
statement is dispatched at line `j` exactly when line `j`'s
comment-stripped, stripped text is nonempty and either ends with `;` or
upper-cases to one of `BEGIN`, `END`, `START`, `TERM`; (b) consequently an
ITEM declaration spanning three physical lines (two non-terminator lines,
then a terminator line, the accumulated buffer matching the ITEM pattern)
produces exactly one item, whose `line_number` is the index of the last
line of the statement. -/
theorem C5_statement_buffering :
    (∀ (ls : List (List Char)) (j : Nat),
      (parseLinesFull ls).2.1 = true →
      ((∃ b, (b, j) ∈ (parseLinesFull ls).2.2) ↔
        ∃ l, ls.get? j = some l ∧ pyStrip (removeComments l) ≠ [] ∧
          (endsSemi (pyStrip (removeComments l)) = true ∨
           upperChars (pyStrip (removeComments l)) = "BEGIN".data ∨
           upperChars (pyStrip (removeComments l)) = "END".data ∨
           upperChars (pyStrip (removeComments l)) = "START".data ∨
           upperChars (pyStrip (removeComments l)) = "TERM".data))) ∧
    (∀ (l0 l1 l2 : List Char) (r : ItemMatch),
      pyStrip (removeComments l0) ≠ [] →
      isFlushLine (pyStrip (removeComments l0)) = false →
      pyStrip (removeComments l1) ≠ [] →
      isFlushLine (pyStrip (removeComments l1)) = false →
      pyStrip (removeComments l2) ≠ [] →
      isFlushLine (pyStrip (removeComments l2)) = true →
      "ITEM".data.isPrefixOf (upperChars (pyStrip ((([] ++ ' ' :: pyStrip (removeComments l0)) ++ ' ' :: pyStrip (removeComments l1)) ++ ' ' :: pyStrip (removeComments l2)))) = true →
      itemMatch (pyStrip (pyRstripSemis (pyStrip ((([] ++ ' ' :: pyStrip (removeComments l0)) ++ ' ' :: pyStrip (removeComments l1)) ++ ' ' :: pyStrip (removeComments l2))))) = some r →
      ∃ m it, parseLines [l0, l1, l2] = .ok m ∧
        m.items = [(String.mk r.name, it)] ∧ it.line_number = 2) := by
  constructor
  · intro ls j hok
    simp only [parseLinesFull] at hok ⊢
    have h := lineLoop_trace_iff ls _ 0 [] j hok
    simp only [Nat.zero_add] at h
    simpa only [isFlushLine_iff] using h
  · intro l0 l1 l2 r h0 h0f h1 h1f h2 h2f hs hm
    simp only [parseLines, parseLinesFull, lineLoop]
    rw [if_neg h0, if_neg (by rw [h0f]; exact Bool.false_ne_true)]
    rw [if_neg h1, if_neg (by rw [h1f]; exact Bool.false_ne_true)]
    rw [if_neg h2, if_pos h2f]
    rw [dispatch_item _ _ _ hs]
    simp only [itemHandler]
    rw [hm]
    refine ⟨_, buildItem (pyStrip ((([] ++ ' ' :: pyStrip (removeComments l0)) ++ ' ' :: pyStrip (removeComments l1)) ++ ' ' :: pyStrip (removeComments l2))) 2 none r, rfl, ?_, rfl⟩
    show (addItem emptyModel (buildItem (pyStrip ((([] ++ ' ' :: pyStrip (removeComments l0)) ++ ' ' :: pyStrip (removeComments l1)) ++ ' ' :: pyStrip (removeComments l2))) 2 none r)).items =
      [(String.mk r.name, buildItem (pyStrip ((([] ++ ' ' :: pyStrip (removeComments l0)) ++ ' ' :: pyStrip (removeComments l1)) ++ ' ' :: pyStrip (removeComments l2))) 2 none r)]
    rw [addItem_items_global _ _ rfl]
    rfl

/-- Claim C5, witness: the three-line declaration
`ITEM` / `WIDE` / `S 16;`. -/
theorem C5_witness :
    (("ITEM WIDE S 16;".data, 2) ∈
      (parseLinesFull ["ITEM".data, "WIDE".data, "S 16;".data]).2.2) ∧
    (parseLines ["ITEM".data, "WIDE".data, "S 16;".data]).map
      (fun m => m.items.map (fun p => (p.1, p.2.line_number))) =
      .ok [("WIDE", 2)] := by
  refine ⟨by decide, ?_⟩
  obtain ⟨m, it, hok, hitems, hln⟩ :=
    C5_statement_buffering.2 "ITEM".data "WIDE".data "S 16;".data
      ⟨"WIDE".data, [], "S".data, some "16".data, []⟩
      (by decide) rfl (by decide) rfl (by decide) rfl rfl (by rfl)
  rw [hok]
  simp only [Except.map]
  rw [hitems]
  simp only [List.map_cons, List.map_nil]
  rw [hln]

end Jovial
